import Mathlib

/-!
Verification of the semantic-notes indexing and retrieval engine.

The TypeScript sources are shallowly embedded here.  JavaScript strings are
modelled as `List Char` (UTF-16 subtleties do not arise: every input the
claims touch is ASCII), JavaScript numbers as `ℚ` (exact arithmetic; every
property proved below is either value-independent or concerns exact
constants such as 0), and the two genuinely transcendental operations of the
source — `Math.sqrt` inside vector normalisation / cosine similarity and the
`Math.sin`-based seeded pseudo-random generator — are passed in as explicit
function parameters (`sqrtQ`, `seeded`), so every theorem holds for every
choice of these functions.  Fallible calls are modelled with `Except` /
`Option`; the `try`/`catch` structure of the source becomes the
corresponding `match`.
-/

/- Rational arithmetic must evaluate inside the kernel for the concrete
counterexamples and witnesses below; these four core operations are
irreducible by default. -/
unseal Rat.add Rat.mul Rat.sub Rat.inv

/-! ## JavaScript string primitives (over `List Char`) -/

/-- The whitespace class used by JavaScript `\s`, `trim` and friends,
restricted to the ASCII range (all concrete inputs below are ASCII). -/
def isJsSpace (c : Char) : Bool :=
  c = ' ' || c = '\t' || c = '\n' || c = '\r' || c = '\x0b' || c = '\x0c'

/-- JavaScript `String.prototype.trim`: drop whitespace from both ends. -/
def jsTrim (s : List Char) : List Char :=
  ((s.dropWhile isJsSpace).reverse.dropWhile isJsSpace).reverse

/-- JavaScript `String.prototype.toLowerCase` (ASCII behaviour). -/
def jsToLower (s : List Char) : List Char :=
  s.map Char.toLower

/-- Does `hay` start with `needle`? -/
def startsWithList : (hay needle : List Char) → Bool
  | _, [] => true
  | [], _ :: _ => false
  | b :: bs, a :: as => a = b && startsWithList bs as

/-- JavaScript `String.prototype.includes`: `needle` occurs somewhere in `hay`. -/
def jsIncludes : (hay needle : List Char) → Bool
  | [], needle => startsWithList [] needle
  | b :: bs, needle => startsWithList (b :: bs) needle || jsIncludes bs needle

/-- JavaScript `String.prototype.indexOf`: first occurrence index, `-1` if absent. -/
def jsIndexOfAux : (hay needle : List Char) → (i : Int) → Int
  | [], needle, i => if startsWithList [] needle then i else -1
  | b :: bs, needle, i =>
    if startsWithList (b :: bs) needle then i else jsIndexOfAux bs needle (i + 1)

def jsIndexOf (hay needle : List Char) : Int :=
  jsIndexOfAux hay needle 0

lemma length_dropWhile_le (p : Char → Bool) (l : List Char) :
    (l.dropWhile p).length ≤ l.length := by
  induction l with
  | nil => simp
  | cons c cs ih =>
    by_cases h : p c
    · simp [List.dropWhile, h]; omega
    · simp [List.dropWhile, h]

/-- JavaScript `split(/\s+/)`: cut at maximal whitespace runs; a leading or
trailing run produces an empty piece, exactly as in JavaScript.  `acc` is
the current piece (reversed), `inRun` records whether the previous
character belonged to a whitespace run. -/
def jsSplitWsAux : (s : List Char) → (acc : List Char) → (inRun : Bool) →
    List (List Char)
  | [], acc, _ => [acc.reverse]
  | c :: cs, acc, inRun =>
    if isJsSpace c then
      if inRun then jsSplitWsAux cs acc true
      else acc.reverse :: jsSplitWsAux cs [] true
    else jsSplitWsAux cs (c :: acc) false

def jsSplitWs (s : List Char) : List (List Char) :=
  jsSplitWsAux s [] false

/-- JavaScript `s.slice(-n)`: the final `min n s.length` characters. -/
def jsSliceLast (s : List Char) (n : Nat) : List Char :=
  s.drop (s.length - n)

/-! ### Basic facts about the string primitives -/

lemma jsTrim_eq_nil_iff (s : List Char) :
    jsTrim s = [] ↔ ∀ c ∈ s, isJsSpace c := by
  unfold jsTrim
  rw [List.reverse_eq_nil_iff, List.dropWhile_eq_nil_iff]
  constructor
  · intro h c hc
    by_cases hmem : c ∈ s.dropWhile isJsSpace
    · exact h c (by simpa using hmem)
    · -- c is in the dropped prefix, hence whitespace
      have hsplit := List.takeWhile_append_dropWhile (p := isJsSpace) (l := s)
      have : c ∈ s.takeWhile isJsSpace ++ s.dropWhile isJsSpace := by
        rw [hsplit]; exact hc
      rcases List.mem_append.1 this with h1 | h1
      · exact List.mem_takeWhile_imp h1
      · exact absurd h1 hmem
  · intro h c hc
    exact h c ((List.dropWhile_sublist _).mem (by simpa using hc))

lemma jsTrim_ne_nil_of_mem {s : List Char} {c : Char}
    (hc : c ∈ s) (hns : ¬ isJsSpace c) : jsTrim s ≠ [] := by
  intro h
  exact hns ((jsTrim_eq_nil_iff s).1 h c hc)

lemma exists_nonspace_of_jsTrim_ne_nil {s : List Char}
    (h : jsTrim s ≠ []) : ∃ c ∈ s, ¬ isJsSpace c := by
  by_contra hall
  push_neg at hall
  exact h ((jsTrim_eq_nil_iff s).2 hall)

lemma mem_jsTrim {s : List Char} {c : Char} (h : c ∈ jsTrim s) : c ∈ s := by
  unfold jsTrim at h
  have h1 := (List.dropWhile_sublist (p := isJsSpace)).mem (by simpa using h)
  exact (List.dropWhile_sublist (p := isJsSpace)).mem (by simpa using h1)

/-! ## Data model (`types.ts` as used by the store)

A stored chunk, from `vector-database`'s `TextChunk` (fields `id`, `text`,
`path`, `title`, `embedding`, `mtime`).  `embedding` is declared optional in
the source, so it becomes an `Option`; `mtime` likewise. -/

structure TextChunk where
  id : List Char
  text : List Char
  path : List Char
  title : List Char
  embedding : Option (List ℚ)
  mtime : Option Int
deriving DecidableEq, Repr

/-- `SearchResult` as produced by `searchSimilar` (`path`, `title`, `text`,
`score`). -/
structure SearchResult where
  path : List Char
  title : List Char
  text : List Char
  score : ℚ
deriving DecidableEq, Repr

namespace VectorDatabaseManager

/-- The store `db = new Map<string, TextChunk>()`, modelled as its list of
entries in insertion order (JavaScript `Map` iterates in insertion order). -/
abbrev Store := List TextChunk

/-- `addChunk`: `db.set(chunk.id, chunk)` — replace in place if the id is
already present (keeping the original position, as a JS `Map` does),
otherwise append. -/
def addChunk (db : Store) (chunk : TextChunk) : Store :=
  if db.any (fun c => c.id = chunk.id) then
    db.map (fun c => if c.id = chunk.id then chunk else c)
  else
    db ++ [chunk]

/-- `clear()`: `db.clear()`. -/
def clear : Store := []

/-- `size()`: `db.size`. -/
def size (db : Store) : Nat := db.length

/-- `removeFile(path)`: iterate over all entries, deleting every chunk whose
`path` matches and counting the deletions.  Deleting entries of a JS `Map`
while iterating over it still visits every entry, so the net effect on the
entry list is a counted filter. -/
def removeFile (db : Store) (path : List Char) : Store × Nat :=
  db.foldl
    (fun st c =>
      if c.path = path then (st.1, st.2 + 1) else (st.1 ++ [c], st.2))
    ([], 0)

/-- `cosineSimilarity(vec1, vec2)`.  `Math.sqrt` is the explicit parameter
`sqrtQ`; the length-mismatch guard returns 0 before any arithmetic. -/
def cosineSimilarity (sqrtQ : ℚ → ℚ) (vec1 vec2 : List ℚ) : ℚ :=
  if vec1.length ≠ vec2.length then 0
  else
    let sums := (vec1.zip vec2).foldl
      (fun (s : ℚ × ℚ × ℚ) p =>
        (s.1 + p.1 * p.2, s.2.1 + p.1 * p.1, s.2.2 + p.2 * p.2))
      (0, 0, 0)
    let dotProduct := sums.1
    let mag1 := sqrtQ sums.2.1
    let mag2 := sqrtQ sums.2.2
    if mag1 = 0 ∨ mag2 = 0 then 0
    else dotProduct / (mag1 * mag2)

/-- The private `exactMatch(query, text)` method of `VectorDatabaseManager`
(the flag computed during similarity search): full lowercase substring
match, else — only when there are at least two query words of length > 2 —
a more-than-half token match. -/
def exactMatch (query text : List Char) : Bool :=
  let normalizedQuery := jsToLower query
  let normalizedText := jsToLower text
  if jsIncludes normalizedText normalizedQuery then true
  else
    let queryWords := (jsSplitWs normalizedQuery).filter (fun w => 2 < w.length)
    if 1 < queryWords.length then
      let matchCount :=
        (queryWords.filter (fun w => jsIncludes normalizedText w)).length
      decide ((matchCount : ℚ) / (queryWords.length : ℚ) > 1 / 2)
    else false

/-- The local `exactMatch` helper inside `rerankResultsImproved`: it trims
the lowercased query before the substring test, and applies the token rule
whenever at least one token survives the length filter. -/
def rerankExactMatch (query text : List Char) : Bool :=
  let normalizedQuery := jsTrim (jsToLower query)
  let normalizedText := jsToLower text
  if jsIncludes normalizedText normalizedQuery then true
  else
    let queryTokens := (jsSplitWs normalizedQuery).filter (fun t => 2 < t.length)
    let matchCount :=
      (queryTokens.filter (fun t => jsIncludes normalizedText t)).length
    decide (0 < queryTokens.length) &&
      decide ((matchCount : ℚ) / (queryTokens.length : ℚ) > 1 / 2)

end VectorDatabaseManager

/-! ## Stable descending sort

`scoredChunks.sort((a, b) => b.score - a.score)` — JavaScript `sort` is
stable, and a stable sort with respect to a total preorder has a unique
result, so any stable descending insertion sort is an exact model. -/

def insertByScoreDesc {α : Type} (key : α → ℚ) (x : α) : List α → List α
  | [] => [x]
  | y :: ys =>
    if key x < key y then y :: insertByScoreDesc key x ys else x :: y :: ys

def sortByScoreDesc {α : Type} (key : α → ℚ) : List α → List α
  | [] => []
  | x :: xs => insertByScoreDesc key x (sortByScoreDesc key xs)

lemma length_insertByScoreDesc {α : Type} (key : α → ℚ) (x : α) (l : List α) :
    (insertByScoreDesc key x l).length = l.length + 1 := by
  induction l with
  | nil => rfl
  | cons y ys ih =>
    unfold insertByScoreDesc
    by_cases h : key x < key y
    · simp [h, ih]
    · simp [h]

lemma length_sortByScoreDesc {α : Type} (key : α → ℚ) (l : List α) :
    (sortByScoreDesc key l).length = l.length := by
  induction l with
  | nil => rfl
  | cons x xs ih =>
    unfold sortByScoreDesc
    rw [length_insertByScoreDesc, ih, List.length_cons]

namespace VectorDatabaseManager

/-- The per-chunk record accumulated in `searchSimilar`'s `scoredChunks`
array: the chunk, its cosine similarity against the query embedding, and its
lexical-match flag. -/
structure ScoredChunk where
  chunk : TextChunk
  score : ℚ
  hasExactMatch : Bool
deriving DecidableEq, Repr

/-- The skip test of the search loop:
`!chunk.embedding || chunk.embedding.length === 0` (negated). -/
def hasUsableEmbedding (c : TextChunk) : Bool :=
  match c.embedding with
  | none => false
  | some v => v.length ≠ 0

/-- Number of chunks visible to search (present, non-empty embedding). -/
def embeddedCount (db : Store) : Nat :=
  (db.filter hasUsableEmbedding).length

/-- One entry of `scoredChunks`. -/
def scoreChunk (sqrtQ : ℚ → ℚ) (queryEmbedding : List ℚ) (query : List Char)
    (c : TextChunk) : ScoredChunk :=
  { chunk := c
    score := cosineSimilarity sqrtQ queryEmbedding (c.embedding.getD [])
    hasExactMatch := exactMatch query c.text }

/-- The post-loop boost: `if (scoredChunk.hasExactMatch) score += 0.3`. -/
def applyBoost (s : ScoredChunk) : ScoredChunk :=
  if s.hasExactMatch then { s with score := s.score + 3 / 10 } else s

/-- `rerankResultsImproved(query, results, limit = 5)`: recompute a combined
score per candidate (semantic score, lexical re-check, length preference,
term proximity), stable-sort descending, truncate to `limit`. -/
def rerankResultsImproved (query : List Char) (results : List SearchResult)
    (limit : Nat := 5) : List SearchResult :=
  let scoredResults := results.map (fun result =>
    let base := result.score
    let withMatch :=
      if rerankExactMatch query result.text then base + 3 / 10 else base
    let normalizedLength : ℚ := min 1 ((result.text.length : ℚ) / 2000)
    let lengthScore : ℚ := (1 / 10) * (1 - normalizedLength)
    let withLength := withMatch + lengthScore
    let words := (jsSplitWs (jsToLower query)).filter (fun w => 2 < w.length)
    let combinedScore :=
      if 1 < words.length then
        let text := jsToLower result.text
        let proximitySumWeight : ℚ :=
          (((List.range words.length).map (fun i =>
            (((List.range words.length).filter (fun j => i < j)).map (fun j =>
              let word1 := words.getD i []
              let word2 := words.getD j []
              let pos1 := jsIndexOf text word1
              let pos2 := jsIndexOf text word2
              if 0 ≤ pos1 ∧ 0 ≤ pos2 then
                let distance : ℚ := ((pos1 - pos2).natAbs : ℚ)
                let maxDistance : ℚ := (text.length : ℚ) / 2
                (1 / 10) * (1 - min 1 (distance / maxDistance))
              else 0)).sum)).sum)
        let wordPairs : ℚ := ((words.length : ℚ) * ((words.length : ℚ) - 1)) / 2
        if 0 < wordPairs then withLength + proximitySumWeight / wordPairs
        else withLength
      else withLength
    { result with score := combinedScore })
  (sortByScoreDesc (fun r => r.score) scoredResults).take limit

/-- `rerankResults(query, results)`: delegates to `rerankResultsImproved`
with its **default** `limit = 5`. -/
def rerankResults (query : List Char) (results : List SearchResult) :
    List SearchResult :=
  rerankResultsImproved query results

/-- `searchSimilar(query, embeddingManager, limit = 5, useReranking = false)`.
`embedF` stands for `embeddingManager.embed` (the query-embedding call). -/
def searchSimilar (sqrtQ : ℚ → ℚ) (embedF : List Char → List ℚ)
    (db : Store) (query : List Char) (limit : Nat) (useReranking : Bool) :
    List SearchResult :=
  if size db = 0 then []
  else
    let queryEmbedding := embedF query
    let scoredChunks :=
      (db.filter hasUsableEmbedding).map (scoreChunk sqrtQ queryEmbedding query)
    let boosted := scoredChunks.map applyBoost
    let sorted := sortByScoreDesc (fun s => s.score) boosted
    let topResults := sorted.take (limit * 2)
    let formattedResults := topResults.map (fun item =>
      ({ path := item.chunk.path
         title := item.chunk.title
         text := item.chunk.text
         score := item.score } : SearchResult))
    if useReranking then (rerankResults query formattedResults).take limit
    else formattedResults.take limit

end VectorDatabaseManager

/-! ## Length lemmas for the search pipeline -/

namespace VectorDatabaseManager

lemma length_rerankResultsImproved (query : List Char)
    (results : List SearchResult) (limit : Nat) :
    (rerankResultsImproved query results limit).length
      = min limit results.length := by
  unfold rerankResultsImproved
  rw [List.length_take, length_sortByScoreDesc, List.length_map]

lemma length_searchSimilar_rerank (sqrtQ : ℚ → ℚ)
    (embedF : List Char → List ℚ) (db : Store) (query : List Char)
    (limit : Nat) :
    (searchSimilar sqrtQ embedF db query limit true).length
      = min limit (min 5 (min (limit * 2) (embeddedCount db))) := by
  unfold searchSimilar
  by_cases h : size db = 0
  · rw [if_pos h]
    have hdb : db = [] := List.length_eq_zero.1 h
    subst hdb
    simp [embeddedCount]
  · rw [if_neg h, if_pos rfl]
    rw [List.length_take, rerankResults, length_rerankResultsImproved,
      List.length_map, List.length_take, length_sortByScoreDesc,
      List.length_map, List.length_map]
    rfl

lemma length_searchSimilar_norerank (sqrtQ : ℚ → ℚ)
    (embedF : List Char → List ℚ) (db : Store) (query : List Char)
    (limit : Nat) :
    (searchSimilar sqrtQ embedF db query limit false).length
      = min limit (min (limit * 2) (embeddedCount db)) := by
  unfold searchSimilar
  by_cases h : size db = 0
  · rw [if_pos h]
    have hdb : db = [] := List.length_eq_zero.1 h
    subst hdb
    simp [embeddedCount]
  · rw [if_neg h, if_neg Bool.false_ne_true]
    rw [List.length_take, List.length_map, List.length_take,
      length_sortByScoreDesc, List.length_map, List.length_map]
    rfl

lemma length_searchSimilar_le (sqrtQ : ℚ → ℚ)
    (embedF : List Char → List ℚ) (db : Store) (query : List Char)
    (limit : Nat) (useReranking : Bool) :
    (searchSimilar sqrtQ embedF db query limit useReranking).length ≤ limit := by
  cases useReranking
  · rw [length_searchSimilar_norerank]; omega
  · rw [length_searchSimilar_rerank]; omega

/-! ## `removeFile` characterisation -/

lemma removeFile_foldl (path : List Char) (db : Store) :
    ∀ (acc : Store) (n : Nat),
      db.foldl
        (fun st c =>
          if c.path = path then (st.1, st.2 + 1) else (st.1 ++ [c], st.2))
        (acc, n)
      = (acc ++ db.filter (fun c => !decide (c.path = path)),
         n + (db.filter (fun c => decide (c.path = path))).length) := by
  induction db with
  | nil => intro acc n; simp
  | cons c cs ih =>
    intro acc n
    by_cases h : c.path = path
    · rw [List.foldl_cons, if_pos h, ih, List.filter_cons, List.filter_cons]
      simp [h]
      omega
    · rw [List.foldl_cons, if_neg h, ih, List.filter_cons, List.filter_cons]
      simp [h]

end VectorDatabaseManager

open VectorDatabaseManager in
/-- C5: for every store state and path, `removeFile(path)` deletes exactly
those chunks whose `path` field equals the given path and leaves every
other chunk unchanged (in order), returning the number of chunks deleted;
calling it a second time with the same path returns 0 and changes
nothing. -/
theorem removeFile_removes_exactly_path_idempotent
    (db : Store) (path : List Char) :
    (removeFile db path).1 = db.filter (fun c => !decide (c.path = path)) ∧
    (removeFile db path).2
      = (db.filter (fun c => decide (c.path = path))).length ∧
    removeFile (removeFile db path).1 path
      = ((removeFile db path).1, 0) := by
  have h1 := removeFile_foldl path db [] 0
  refine ⟨?_, ?_, ?_⟩
  · rw [removeFile, h1]; simp
  · rw [removeFile, h1]; simp
  · have hfst : (removeFile db path).1
        = db.filter (fun c => !decide (c.path = path)) := by
      rw [removeFile, h1]; simp
    rw [hfst, removeFile,
      removeFile_foldl path (db.filter (fun c => !decide (c.path = path))) [] 0]
    rw [List.filter_filter, List.filter_filter]
    simp

open VectorDatabaseManager in
/-- C6: cosine similarity of vectors of unequal length is 0 rather than an
error, and a search over a store containing such a mismatched-dimension
chunk completes normally: the chunk's semantic score is 0, its boosted
score is at most the lexical boost, and the search still returns at most
`limit` results. -/
theorem cosine_dimension_mismatch_recovered
    (sqrtQ : ℚ → ℚ) (v1 v2 : List ℚ) (embedF : List Char → List ℚ)
    (db : Store) (query : List Char) (limit : Nat) (useReranking : Bool)
    (c : TextChunk)
    (hv : v1.length ≠ v2.length)
    (hc : (embedF query).length ≠ (c.embedding.getD []).length) :
    cosineSimilarity sqrtQ v1 v2 = 0 ∧
    (scoreChunk sqrtQ (embedF query) query c).score = 0 ∧
    (applyBoost (scoreChunk sqrtQ (embedF query) query c)).score
      = (if exactMatch query c.text then 3 / 10 else 0) ∧
    (searchSimilar sqrtQ embedF db query limit useReranking).length ≤ limit := by
  have hcos : cosineSimilarity sqrtQ v1 v2 = 0 := by
    rw [cosineSimilarity, if_pos hv]
  have hscore : (scoreChunk sqrtQ (embedF query) query c).score = 0 := by
    rw [scoreChunk, cosineSimilarity, if_pos hc]
  refine ⟨hcos, hscore, ?_, length_searchSimilar_le _ _ _ _ _ _⟩
  by_cases hm : (scoreChunk sqrtQ (embedF query) query c).hasExactMatch
  · have hm2 : exactMatch query c.text := by
      simpa [scoreChunk] using hm
    rw [applyBoost, if_pos hm, if_pos hm2, hscore]
    rw [zero_add]
  · have hm2 : ¬ exactMatch query c.text := by
      simpa [scoreChunk] using hm
    rw [applyBoost, if_neg hm, if_neg (by simpa using hm2), hscore]

open VectorDatabaseManager in
/-- Witness for C6 at a concrete input. -/
theorem cosine_dimension_mismatch_recovered_witness :
    ([ (1 : ℚ) ].length ≠ [ (1 : ℚ), 2 ].length) ∧
    cosineSimilarity id [(1 : ℚ)] [(1 : ℚ), 2] = 0 ∧
    (searchSimilar id (fun _ => [(1 : ℚ)]) [] [] 5 false).length ≤ 5 := by
  have h := cosine_dimension_mismatch_recovered id [(1 : ℚ)] [(1 : ℚ), 2]
    (fun _ => [(1 : ℚ)]) [] [] 5 false
    ({ id := [], text := [], path := [], title := [],
       embedding := some [(1 : ℚ), 2], mtime := none })
    (by decide) (by decide)
  exact ⟨by decide, h.1, h.2.2.2⟩

/-! ## C2: reranked search length -/

/-- A concrete store of six chunks with present embeddings, used to
exercise the reranked search path. -/
def sixChunkStore : VectorDatabaseManager.Store :=
  (List.range 6).map (fun n =>
    { id := ['c', Char.ofNat (48 + n)]
      text := ['t', Char.ofNat (48 + n)]
      path := ['p']
      title := ['T']
      embedding := some [1]
      mtime := none })

open VectorDatabaseManager in
/-- C2 counterexample: with reranking enabled, `limit = 6` (inside the
configured 1–10 range) and a store of six chunks with present embeddings,
`searchSimilar` returns only 5 results, not `limit = 6` as the claim
states: `rerankResults` invokes `rerankResultsImproved` with its default
`limit = 5`, which truncates the candidate list before the caller's final
truncation. -/
theorem searchSimilar_rerank_limit6_returns5 :
    embeddedCount sixChunkStore = 6 ∧
    (searchSimilar id (fun _ => [1]) sixChunkStore ['q'] 6 true).length = 5 := by
  constructor
  · decide
  · decide

open VectorDatabaseManager in
/-- C2 amended: with reranking enabled, `searchSimilar` hands the top
`2 × limit` scored candidates to the reranker, whose output — itself
truncated to the reranker's internal default of 5 — is then truncated to
`limit`.  The returned length is therefore
`min limit (min 5 (min (2 × limit) n))` where `n` is the number of chunks
with present (non-empty) embeddings; for `limit ≤ 5` with at least `limit`
such chunks this is exactly `limit`, but for `limit` in 6–10 at most 5
results are ever returned. -/
theorem searchSimilar_rerank_length_formula
    (sqrtQ : ℚ → ℚ) (embedF : List Char → List ℚ)
    (db : Store) (query : List Char) (limit : Nat) :
    (searchSimilar sqrtQ embedF db query limit true).length
      = min limit (min 5 (min (limit * 2) (embeddedCount db))) :=
  length_searchSimilar_rerank sqrtQ embedF db query limit

/-! ## C3: the two lexical-match flags -/

/-- Modelled from the spec (§4.4 step 3): the lexical-match flag as the
specification words it — true if the lowercase chunk text contains the full
lowercase query as a substring, or if more than half of the query's
whitespace-split lowercase tokens of length > 2 occur as substrings of the
text. -/
def specLexicalMatch (query text : List Char) : Bool :=
  let q := jsToLower query
  let t := jsToLower text
  jsIncludes t q ||
    (let tokens := (jsSplitWs q).filter (fun w => 2 < w.length)
     let matchCount := (tokens.filter (fun w => jsIncludes t w)).length
     decide (0 < tokens.length) &&
       decide ((matchCount : ℚ) / (tokens.length : ℚ) > 1 / 2))

open VectorDatabaseManager in
/-- C3 counterexample: for query "an apple" and chunk text "apple pie" the
reranker's local helper returns true (its token rule fires as soon as at
least one token of length > 2 survives, and "apple" occurs), while the
similarity-search method returns false (its token rule requires at least
two such tokens, and the full query is not a substring).  The two flags are
therefore not equal as the claim states. -/
theorem lexical_flags_differ_on_an_apple :
    rerankExactMatch ("an apple".toList) ("apple pie".toList) = true ∧
    exactMatch ("an apple".toList) ("apple pie".toList) = false := by
  constructor
  · decide
  · decide

open VectorDatabaseManager in
/-- C3 amended: the two flags agree — and both match the specification's
formula — whenever the lowercased query is unchanged by trimming and the
number of its whitespace-split tokens of length > 2 is not exactly one.
(They can differ when exactly one token survives the length filter, because
only the reranker's helper applies the token rule then, and when the query
has surrounding whitespace, because only the helper trims it.) -/
theorem lexical_flags_agree_when_trimmed_and_not_single_token
    (query text : List Char)
    (hq : jsTrim (jsToLower query) = jsToLower query)
    (hn : ((jsSplitWs (jsToLower query)).filter
      (fun w => 2 < w.length)).length ≠ 1) :
    rerankExactMatch query text = exactMatch query text ∧
    exactMatch query text = specLexicalMatch query text := by
  unfold rerankExactMatch exactMatch specLexicalMatch
  rw [hq]
  by_cases hinc : jsIncludes (jsToLower text) (jsToLower query)
  · simp [hinc]
  · simp only [hinc, Bool.false_or, if_false, if_neg]
    rcases Nat.lt_or_ge ((jsSplitWs (jsToLower query)).filter
      (fun w => 2 < w.length)).length 1 with h1 | h1
    · have h0 : ((jsSplitWs (jsToLower query)).filter
          (fun w => 2 < w.length)).length = 0 := by omega
      simp [hinc, h0]
    · have h2 : 1 < ((jsSplitWs (jsToLower query)).filter
          (fun w => 2 < w.length)).length := by omega
      simp [hinc, h2, Nat.lt_of_lt_of_le Nat.zero_lt_one (le_of_lt h2)]

open VectorDatabaseManager in
/-- Witness for the amended C3 at a concrete input with two surviving
tokens. -/
theorem lexical_flags_agree_witness :
    jsTrim (jsToLower "red apple".toList) = jsToLower "red apple".toList ∧
    ((jsSplitWs (jsToLower "red apple".toList)).filter
      (fun w => 2 < w.length)).length ≠ 1 ∧
    (rerankExactMatch "red apple".toList "apple pie".toList
        = exactMatch "red apple".toList "apple pie".toList ∧
      exactMatch "red apple".toList "apple pie".toList
        = specLexicalMatch "red apple".toList "apple pie".toList) :=
  ⟨by decide, by decide,
    lexical_flags_agree_when_trimmed_and_not_single_token
      "red apple".toList "apple pie".toList (by decide) (by decide)⟩

/-! ## Embedding gateway (`embedding-manager`)

`Math.sin`-based pseudo-randomness (`seededRandom`) and `Math.sqrt`
(normalisation) are explicit function parameters; the Markdown-stripping
`preprocessTextForEmbedding` is likewise passed in (its regex pipeline is
orthogonal to every claim below, which only depends on whether its result
trims to the empty string; on the concrete inputs used it acts as the
identity).  `embeddingModel` is the model closure as it stands after
`loadModelIfNeeded`: `none` when loading failed (so the inner
`if (!this.embeddingModel) throw` fires and the outer catch answers), and
`some model` otherwise, where `model` may fail (`Except.error`) like the
guarded provider call.  -/

namespace EmbeddingManager

/-- JavaScript `ToInt32` (the effect of `hash & hash` on a float). -/
def toInt32 (n : Int) : Int :=
  (n + 2 ^ 31) % 2 ^ 32 - 2 ^ 31

/-- `hashString(str)`: `hash = ((hash << 5) - hash) + charCode; hash &= hash`.
`hash << 5` operates on the 32-bit value, subtraction and addition are exact,
and the `&` wraps back to a signed 32-bit integer. -/
def hashString (s : List Char) : Int :=
  s.foldl (fun hash c => toInt32 (toInt32 (hash * 32) - hash + c.toNat)) 0

/-- `normalizeVector(vector)`: divide by the magnitude, or — for an
all-zero vector — return the canonical unit vector (first coordinate 1). -/
def normalizeVector (sqrtQ : ℚ → ℚ) (vector : List ℚ) : List ℚ :=
  let squaredSum := vector.foldl (fun sum val => sum + val * val) 0
  let magnitude := sqrtQ squaredSum
  if magnitude = 0 then
    match vector with
    | [] => []
    | _ :: t => 1 :: t.map (fun _ => 0)
  else vector.map (fun val => val / magnitude)

/-- `generateDeterministicEmbedding(text)`: seed each coordinate from
`hashString(text) + i * 0.1`, subtract 0.5, then unit-normalise. -/
def generateDeterministicEmbedding (dim : Nat) (seeded sqrtQ : ℚ → ℚ)
    (text : List Char) : List ℚ :=
  let hash := hashString text
  let embedding := (List.range dim).map (fun i =>
    seeded ((hash : ℚ) + (i : ℚ) * (1 / 10)) - 1 / 2)
  normalizeVector sqrtQ embedding

/-- `embed(text)`: preprocess, fall back to the deterministic embedding of
the literal string "empty_text" when the processed text trims to nothing,
call the model and fall back to the deterministic embedding of the
**processed** text when that call fails; the outer catch (model unavailable)
falls back to the deterministic embedding of the original text. -/
def embed (dim : Nat) (seeded sqrtQ : ℚ → ℚ)
    (preprocessTextForEmbedding : List Char → List Char)
    (embeddingModel : Option (List Char → Except Unit (List ℚ)))
    (text : List Char) : List ℚ :=
  match embeddingModel with
  | none => generateDeterministicEmbedding dim seeded sqrtQ text
  | some model =>
    let processedText := preprocessTextForEmbedding text
    if jsTrim processedText = [] then
      generateDeterministicEmbedding dim seeded sqrtQ ("empty_text".toList)
    else
      match model processedText with
      | Except.error _ =>
        generateDeterministicEmbedding dim seeded sqrtQ processedText
      | Except.ok embedding => embedding

end EmbeddingManager

set_option maxRecDepth 8000 in
open EmbeddingManager in
/-- C1 counterexample: at the empty input text (on which the real Markdown
preprocessing acts as the identity, so `preprocess = id` is exact there),
`embed` returns the deterministic embedding of the constant string
"empty_text" — which differs from the deterministic embedding of the
original (pre-preprocessing) input text that the claim promises (shown here
for dimension 1 with `seeded = sqrtQ = id`; the two hashes differ, and so
do the produced vectors). -/
theorem embed_empty_fallback_not_from_original :
    embed 1 id id id (some (fun _ => Except.ok [1])) []
      = generateDeterministicEmbedding 1 id id ("empty_text".toList) ∧
    generateDeterministicEmbedding 1 id id ("empty_text".toList)
      ≠ generateDeterministicEmbedding 1 id id [] ∧
    hashString ("empty_text".toList) ≠ hashString [] := by
  refine ⟨by decide, by decide, by decide⟩

open EmbeddingManager in
/-- C1 amended: `embed` is total (no exception ever reaches the caller; on
provider success it returns the model's vector) and deterministic (it is a
pure function of its inputs), but the fallback provenance is: the constant
string "empty_text" when preprocessing yields an empty string, the
**preprocessed** text when the model call fails, and the original text only
on the outer guard (model unavailable). -/
theorem embed_total_with_deterministic_fallbacks
    (dim : Nat) (seeded sqrtQ : ℚ → ℚ)
    (preprocess : List Char → List Char)
    (model : List Char → Except Unit (List ℚ)) (text : List Char) :
    (embed dim seeded sqrtQ preprocess none text
      = generateDeterministicEmbedding dim seeded sqrtQ text) ∧
    (jsTrim (preprocess text) = [] →
      embed dim seeded sqrtQ preprocess (some model) text
        = generateDeterministicEmbedding dim seeded sqrtQ ("empty_text".toList)) ∧
    (jsTrim (preprocess text) ≠ [] →
      model (preprocess text) = Except.error () →
      embed dim seeded sqrtQ preprocess (some model) text
        = generateDeterministicEmbedding dim seeded sqrtQ (preprocess text)) ∧
    (∀ v, jsTrim (preprocess text) ≠ [] →
      model (preprocess text) = Except.ok v →
      embed dim seeded sqrtQ preprocess (some model) text = v) := by
  refine ⟨rfl, ?_, ?_, ?_⟩
  · intro h
    simp only [embed, h, if_pos rfl]
    rfl
  · intro h he
    rw [embed]
    rw [if_neg h, he]
  · intro v h he
    rw [embed]
    rw [if_neg h, he]

open EmbeddingManager in
/-- Witness for the amended C1, covering the empty-preprocessing and
failing-model paths at concrete inputs. -/
theorem embed_total_with_deterministic_fallbacks_witness :
    (jsTrim (id ([] : List Char)) = [] ∧
      embed 1 id id id (some (fun _ => Except.ok [1])) []
        = generateDeterministicEmbedding 1 id id ("empty_text".toList)) ∧
    (jsTrim (id ['a']) ≠ [] ∧
      embed 1 id id id (some (fun _ => Except.error ())) ['a']
        = generateDeterministicEmbedding 1 id id ['a']) ∧
    (jsTrim (id ['a']) ≠ [] ∧
      embed 1 id id id (some (fun _ => Except.ok [7])) ['a'] = [7]) :=
  ⟨⟨by decide,
    (embed_total_with_deterministic_fallbacks 1 id id id
      (fun _ => Except.ok [1]) []).2.1 (by decide)⟩,
   ⟨by decide,
    (embed_total_with_deterministic_fallbacks 1 id id id
      (fun _ => Except.error ()) ['a']).2.2.1 (by decide) rfl⟩,
   ⟨by decide,
    (embed_total_with_deterministic_fallbacks 1 id id id
      (fun _ => Except.ok [7]) ['a']).2.2.2 [7] (by decide) rfl⟩⟩

/-! ## The UI search flow (`SemanticSearchModal.performSearch`) -/

namespace SemanticSearchModal

open VectorDatabaseManager

/-- `performSearch(query)`: rejects an empty or whitespace-only query
(`!query || query.trim().length === 0`) without searching (`none`);
otherwise runs `searchSimilar` with the hard-coded `limit = 5` and the
configured `useReranking`. -/
def performSearch (sqrtQ : ℚ → ℚ) (embedF : List Char → List ℚ)
    (db : Store) (useReranking : Bool) (query : List Char) :
    Option (List SearchResult) :=
  if query = [] ∨ (jsTrim query).length = 0 then none
  else some (searchSimilar sqrtQ embedF db query 5 useReranking)

end SemanticSearchModal

/-- A one-chunk store with a present embedding (dimension 1). -/
def oneChunkStore : VectorDatabaseManager.Store :=
  [{ id := ['c'], text := ['t'], path := ['p'], title := ['T'],
     embedding := some [1], mtime := none }]

set_option maxRecDepth 8000 in
open VectorDatabaseManager EmbeddingManager in
/-- C7 counterexample: `searchSimilar` itself has no empty-query guard.
With a non-empty store, the empty query is embedded (through the empty-text
fallback of the gateway, here with dimension 1 and `seeded = sqrtQ = id`)
and the search returns one result, not the empty result set the claim
requires.  (`exactMatch("", text)` is even true — the empty string is a
substring of everything — so the chunk gets the lexical boost.) -/
theorem searchSimilar_empty_query_returns_results :
    (searchSimilar id (embed 1 id id id (some (fun _ => Except.ok [1])))
        oneChunkStore [] 5 false).length = 1 ∧
    exactMatch [] ['t'] = true := by
  refine ⟨by decide, by decide⟩

open VectorDatabaseManager SemanticSearchModal in
/-- C7 amended: the empty-query short-circuit lives in the UI flow, not in
`searchSimilar`: `performSearch` declines to search exactly when the query
is empty or whitespace-only, and otherwise delegates to `searchSimilar`
unchanged. -/
theorem performSearch_guards_empty_query
    (sqrtQ : ℚ → ℚ) (embedF : List Char → List ℚ) (db : Store)
    (useReranking : Bool) (query : List Char) :
    (performSearch sqrtQ embedF db useReranking query = none
      ↔ jsTrim query = []) ∧
    (jsTrim query ≠ [] →
      performSearch sqrtQ embedF db useReranking query
        = some (searchSimilar sqrtQ embedF db query 5 useReranking)) := by
  constructor
  · constructor
    · intro h
      by_cases hg : query = [] ∨ (jsTrim query).length = 0
      · rcases hg with hg | hg
        · subst hg; rfl
        · exact List.length_eq_zero.1 hg
      · rw [performSearch, if_neg hg] at h
        exact absurd h (by simp)
    · intro h
      rw [performSearch, if_pos (Or.inr (by rw [h]; rfl))]
  · intro h
    rw [performSearch, if_neg ?_]
    rintro (hg | hg)
    · exact h (by rw [hg]; rfl)
    · exact h (List.length_eq_zero.1 hg)

open VectorDatabaseManager SemanticSearchModal in
/-- Witness for the amended C7: a whitespace-only query is rejected, a
non-blank one is forwarded to `searchSimilar`. -/
theorem performSearch_guards_empty_query_witness :
    performSearch id (fun _ => [(1 : ℚ)]) [] false [' '] = none ∧
    performSearch id (fun _ => [(1 : ℚ)]) [] false ['q']
      = some (searchSimilar id (fun _ => [(1 : ℚ)]) [] ['q'] 5 false) :=
  ⟨(performSearch_guards_empty_query id (fun _ => [(1 : ℚ)]) [] false
      [' ']).1.mpr (by decide),
   (performSearch_guards_empty_query id (fun _ => [(1 : ℚ)]) [] false
      ['q']).2 (by decide)⟩

/-! ## Persistence (`main.ts`: `saveEmbeddingsToDisk` / `loadEmbeddingsFromDisk`)

The plugin's `data.json` is modelled as `Option SavedData` (the `none` case
is `loadData()` returning nothing).  `Date.now()` is the explicit `now`
parameter. -/

/-- One serialized chunk record of the snapshot. -/
structure SavedChunk where
  id : List Char
  path : List Char
  text : List Char
  title : List Char
  embedding : Option (List ℚ)
  mtime : Int
deriving DecidableEq, Repr

/-- `SavedData`: `version`, `modelName`, `chunks`, `updatedAt`. -/
structure SavedData where
  version : Nat
  modelName : List Char
  chunks : List SavedChunk
  updatedAt : Int
deriving DecidableEq, Repr

namespace SemanticNotesPlugin

open VectorDatabaseManager

/-- `chunk.mtime || Date.now()` on the optional in-store field (JavaScript
treats both a missing value and 0 as falsy). -/
def mtimeOrNow (m : Option Int) (now : Int) : Int :=
  match m with
  | none => now
  | some v => if v = 0 then now else v

/-- `saveEmbeddingsToDisk()`: skip entirely when the store is uninitialized
(`!this.vectorDbManager`) or empty (`size() === 0`); otherwise write a
snapshot holding every chunk whose `embedding` field is present
(`if (chunk.embedding)`). -/
def saveEmbeddingsToDisk (vectorDbManager : Option Store)
    (modelName : List Char) (now : Int) (disk : Option SavedData) :
    Option SavedData :=
  match vectorDbManager with
  | none => disk
  | some db =>
    if size db = 0 then disk
    else
      some
        { version := 1
          modelName := modelName
          chunks := (db.filter (fun c => c.embedding.isSome)).map (fun c =>
            { id := c.id, path := c.path, text := c.text, title := c.title,
              embedding := c.embedding, mtime := mtimeOrNow c.mtime now })
          updatedAt := now }

/-- The in-store chunk rebuilt by `loadEmbeddingsFromDisk`'s `addChunk`
call (`chunk.mtime || Date.now()` again, now on the serialized field). -/
def chunkOfSaved (c : SavedChunk) (now : Int) : TextChunk :=
  { id := c.id, text := c.text, path := c.path, title := c.title,
    embedding := c.embedding,
    mtime := some (if c.mtime = 0 then now else c.mtime) }

/-- `loadEmbeddingsFromDisk()`: no data or an empty chunk list → `false`
without touching the store; a model-name mismatch → `false` without
touching the store; otherwise clear the store and re-add every serialized
chunk with a present embedding, returning `true`. -/
def loadEmbeddingsFromDisk (disk : Option SavedData)
    (activeModel : List Char) (now : Int) (db : Store) : Bool × Store :=
  match disk with
  | none => (false, db)
  | some savedData =>
    if savedData.chunks.length = 0 then (false, db)
    else if savedData.modelName ≠ activeModel then (false, db)
    else
      (true,
        savedData.chunks.foldl
          (fun acc c =>
            if c.embedding.isSome then addChunk acc (chunkOfSaved c now)
            else acc)
          clear)

/-- The fields C4 compares across the round trip: id, path, text, title and
embedding vector. -/
def chunkKey (c : TextChunk) :
    List Char × List Char × List Char × List Char × Option (List ℚ) :=
  (c.id, c.path, c.text, c.title, c.embedding)

end SemanticNotesPlugin

namespace SemanticNotesPlugin

open VectorDatabaseManager

lemma addChunk_fresh (acc : Store) (c : TextChunk)
    (h : ∀ a ∈ acc, a.id ≠ c.id) : addChunk acc c = acc ++ [c] := by
  rw [addChunk, if_neg]
  intro hany
  rw [List.any_eq_true] at hany
  obtain ⟨a, ha, hid⟩ := hany
  exact h a ha (by simpa using hid)

lemma foldl_addChunk_fresh (now : Int) :
    ∀ (cs : List SavedChunk) (acc : Store),
      (∀ c ∈ cs, c.embedding.isSome) →
      (cs.map SavedChunk.id).Nodup →
      (∀ c ∈ cs, ∀ a ∈ acc, a.id ≠ c.id) →
      cs.foldl
        (fun acc c =>
          if c.embedding.isSome then addChunk acc (chunkOfSaved c now)
          else acc)
        acc
      = acc ++ cs.map (fun c => chunkOfSaved c now) := by
  intro cs
  induction cs with
  | nil => intro acc _ _ _; simp
  | cons c cs ih =>
    intro acc hsome hnodup hfresh
    rw [List.foldl_cons, if_pos (hsome c (List.mem_cons_self c cs)),
      addChunk_fresh acc (chunkOfSaved c now)
        (fun a ha => hfresh c (List.mem_cons_self c cs) a ha)]
    rw [ih (acc ++ [chunkOfSaved c now])
      (fun x hx => hsome x (List.mem_cons_of_mem c hx))
      (by simpa using hnodup.of_cons)
      ?_]
    · simp
    · intro x hx a ha
      rcases List.mem_append.1 ha with ha | ha
      · exact hfresh x (List.mem_cons_of_mem c hx) a ha
      · have : a = chunkOfSaved c now := by simpa using ha
        subst this
        show c.id ≠ x.id
        intro hEq
        have hx' : c.id ∈ cs.map SavedChunk.id := by
          rw [hEq]
          exact List.mem_map_of_mem SavedChunk.id hx
        rw [List.map_cons] at hnodup
        exact (List.nodup_cons.1 hnodup).1 hx'

end SemanticNotesPlugin

open VectorDatabaseManager SemanticNotesPlugin in
/-- C4: when at least one stored chunk has a present embedding (every chunk
the program itself inserts does) and the stored ids are distinct (the `Map`
key invariant), saving and then loading under the same model name succeeds
and rebuilds exactly the chunks that had embeddings at save time — same
ids, paths, texts, titles and embedding vectors; loading the same snapshot
under any other model name reports failure and leaves the store it was
given untouched. -/
theorem save_load_round_trip
    (db : Store) (modelName otherModel : List Char) (now now2 : Int)
    (disk0 : Option SavedData) (dbPrior dbPrior2 : Store)
    (hnodup : (db.map TextChunk.id).Nodup)
    (hsome : ∃ c ∈ db, c.embedding.isSome)
    (hdiff : otherModel ≠ modelName) :
    (loadEmbeddingsFromDisk (saveEmbeddingsToDisk (some db) modelName now disk0)
        modelName now2 dbPrior).1 = true ∧
    ((loadEmbeddingsFromDisk (saveEmbeddingsToDisk (some db) modelName now disk0)
        modelName now2 dbPrior).2).map chunkKey
      = (db.filter (fun c => c.embedding.isSome)).map chunkKey ∧
    loadEmbeddingsFromDisk (saveEmbeddingsToDisk (some db) modelName now disk0)
        otherModel now2 dbPrior2 = (false, dbPrior2) := by
  obtain ⟨c0, hc0, hc0some⟩ := hsome
  have hdbne : size db ≠ 0 := by
    rcases db with _ | _
    · exact absurd hc0 (List.not_mem_nil c0)
    · simp [size]
  have hsave : saveEmbeddingsToDisk (some db) modelName now disk0
      = some
        { version := 1
          modelName := modelName
          chunks := (db.filter (fun c => c.embedding.isSome)).map (fun c =>
            { id := c.id, path := c.path, text := c.text, title := c.title,
              embedding := c.embedding, mtime := mtimeOrNow c.mtime now })
          updatedAt := now } := by
    rw [saveEmbeddingsToDisk, if_neg hdbne]
  have hfilne : (db.filter (fun c => c.embedding.isSome)).length ≠ 0 := by
    intro h
    have : c0 ∈ db.filter (fun c => c.embedding.isSome) :=
      List.mem_filter.2 ⟨hc0, hc0some⟩
    rw [List.length_eq_zero.1 h] at this
    exact List.not_mem_nil c0 this
  have hlenne :
      (((db.filter (fun c => c.embedding.isSome)).map (fun c =>
        ({ id := c.id, path := c.path, text := c.text, title := c.title,
           embedding := c.embedding,
           mtime := mtimeOrNow c.mtime now } : SavedChunk))).length) ≠ 0 := by
    rw [List.length_map]; exact hfilne
  refine ⟨?_, ?_, ?_⟩
  · rw [hsave, loadEmbeddingsFromDisk]
    rw [if_neg hlenne, if_neg (by simp)]
  · rw [hsave, loadEmbeddingsFromDisk]
    rw [if_neg hlenne, if_neg (by simp)]
    rw [foldl_addChunk_fresh now2 _ clear ?_ ?_ ?_]
    · show (clear ++ _).map chunkKey = _
      simp only [clear, List.nil_append, List.map_map]
      exact List.map_congr_left (fun a _ => rfl)
    · intro c hc
      obtain ⟨a, hamem, rfl⟩ := List.mem_map.1 hc
      simpa using (List.mem_filter.1 hamem).2
    · rw [List.map_map]
      have hsub : (db.filter (fun c => c.embedding.isSome)).map TextChunk.id
          |>.Sublist (db.map TextChunk.id) :=
        (List.filter_sublist db).map TextChunk.id
      exact (hnodup.sublist hsub :
        ((db.filter (fun c => c.embedding.isSome)).map TextChunk.id).Nodup)
    · intro c _ a ha
      exact absurd ha (List.not_mem_nil a)
  · rw [hsave, loadEmbeddingsFromDisk]
    rw [if_neg hlenne, if_pos (by simpa using fun h => hdiff h.symm)]

open VectorDatabaseManager SemanticNotesPlugin in
/-- Witness for C4 at a concrete one-chunk store and two model names. -/
theorem save_load_round_trip_witness :
    ((oneChunkStore.map TextChunk.id).Nodup ∧
      (∃ c ∈ oneChunkStore, c.embedding.isSome) ∧ (['x'] : List Char) ≠ ['m']) ∧
    (loadEmbeddingsFromDisk
        (saveEmbeddingsToDisk (some oneChunkStore) ['m'] 7 none) ['m'] 9
        []).1 = true ∧
    ((loadEmbeddingsFromDisk
        (saveEmbeddingsToDisk (some oneChunkStore) ['m'] 7 none) ['m'] 9
        []).2).map chunkKey
      = (oneChunkStore.filter (fun c => c.embedding.isSome)).map chunkKey ∧
    loadEmbeddingsFromDisk
        (saveEmbeddingsToDisk (some oneChunkStore) ['m'] 7 none) ['x'] 9
        oneChunkStore = (false, oneChunkStore) := by
  have h := save_load_round_trip oneChunkStore ['m'] ['x'] 7 9 none
    [] oneChunkStore (by decide) (by decide) (by decide)
  exact ⟨⟨by decide, by decide, by decide⟩, h.1, h.2.1, h.2.2⟩

open VectorDatabaseManager SemanticNotesPlugin in
/-- C10: `saveEmbeddingsToDisk` performs no write when the vector store is
uninitialized or holds zero chunks, so clearing the store and then saving
leaves whatever snapshot is on disk unchanged — the persisted snapshot is
never overwritten with an empty chunk set. -/
theorem save_skips_empty_or_missing_store
    (db : Store) (modelName : List Char) (now : Int)
    (disk : Option SavedData) :
    saveEmbeddingsToDisk none modelName now disk = disk ∧
    (size db = 0 → saveEmbeddingsToDisk (some db) modelName now disk = disk) ∧
    saveEmbeddingsToDisk (some clear) modelName now disk = disk := by
  refine ⟨rfl, ?_, rfl⟩
  intro h
  show (if size db = 0 then disk else _) = disk
  rw [if_pos h]

open VectorDatabaseManager SemanticNotesPlugin in
/-- Witness for C10 at a concrete empty store and a concrete non-trivial
snapshot already on disk. -/
theorem save_skips_empty_or_missing_store_witness :
    size ([] : Store) = 0 ∧
    saveEmbeddingsToDisk (some ([] : Store)) ['m'] 7
        (some { version := 1, modelName := ['m'], chunks := [], updatedAt := 3 })
      = some { version := 1, modelName := ['m'], chunks := [], updatedAt := 3 } :=
  ⟨by decide,
    (save_skips_empty_or_missing_store [] ['m'] 7
      (some { version := 1, modelName := ['m'], chunks := [], updatedAt := 3 })).2.1
      (by decide)⟩

/-! ## Chunker (`main.ts`: `chunkMarkdownContent` and helpers) -/

namespace SemanticNotesPlugin

/-- Split into lines, each paired with the index of its first character
(`'\n'`-delimited, as the `m`-flag anchors of the heading regex see them). -/
def splitLinesAux : (s : List Char) → (lineStart i : Nat) → (acc : List Char) →
    List (Nat × List Char)
  | [], lineStart, _, acc => [(lineStart, acc.reverse)]
  | c :: cs, lineStart, i, acc =>
    if c = '\n' then (lineStart, acc.reverse) :: splitLinesAux cs (i + 1) (i + 1) []
    else splitLinesAux cs lineStart (i + 1) (c :: acc)

def splitLines (s : List Char) : List (Nat × List Char) :=
  splitLinesAux s 0 0 []

/-- Does a line match the heading regex `^#{1,6}\s+.+$` (with `m`)?  The
run of leading `#` must have length 1–6 (a longer run leaves a `#` where
`\s` is required), the next character must be whitespace, and at least one
further character must follow on the line (`\s+` then `.+`). -/
def isHeadingLine (line : List Char) : Bool :=
  let hashes := (line.takeWhile (fun c => c = '#')).length
  decide (1 ≤ hashes) && decide (hashes ≤ 6) &&
    (match line.drop hashes with
     | c :: rest => isJsSpace c && decide (1 ≤ rest.length)
     | [] => false)

/-- The start indices of `matchAll`'s heading matches. -/
def headingStarts (markdownContent : List Char) : List Nat :=
  ((splitLines markdownContent).filter (fun p => isHeadingLine p.2)).map
    (fun p => p.1)

/-- JavaScript `substring(a, b)` for `a ≤ b`. -/
def jsSubstring (s : List Char) (a b : Nat) : List Char :=
  (s.drop a).take (b - a)

/-- `if (chunk.length > 0) chunks.push(chunk)`. -/
def pushNonempty (chunks : List (List Char)) (chunk : List Char) :
    List (List Char) :=
  if 0 < chunk.length then chunks ++ [chunk] else chunks

/-- The indexed loop of `chunkByHeadings`: note the faithful
`if (!headingMatch.index) continue` — a heading match at index 0 is
**skipped** (0 is falsy) — and the falsy test on the next match's index. -/
def chunkByHeadingsLoop (text : List Char) :
    (hs : List Nat) → (currentIndex : Nat) → (chunks : List (List Char)) →
    List (List Char) × Nat
  | [], currentIndex, chunks => (chunks, currentIndex)
  | h :: rest, currentIndex, chunks =>
    if h = 0 then chunkByHeadingsLoop text rest currentIndex chunks
    else
      let chunks1 :=
        if currentIndex < h then
          pushNonempty chunks (jsTrim (jsSubstring text currentIndex h))
        else chunks
      let nextHeadingIndex :=
        match rest with
        | [] => text.length
        | h2 :: _ => if h2 = 0 then text.length else h2
      let chunks2 := pushNonempty chunks1 (jsTrim (jsSubstring text h nextHeadingIndex))
      chunkByHeadingsLoop text rest nextHeadingIndex chunks2

/-- `chunkByHeadings(markdownContent)`: with no heading matches the whole
content is returned **untrimmed** as a single chunk; otherwise the heading
loop runs and any remaining tail is trimmed and pushed. -/
def chunkByHeadings (markdownContent : List Char) : List (List Char) :=
  let headingMatches := headingStarts markdownContent
  if headingMatches.length = 0 then [markdownContent]
  else
    let st := chunkByHeadingsLoop markdownContent headingMatches 0 []
    if st.2 < markdownContent.length then
      pushNonempty st.1 (jsTrim (markdownContent.drop st.2))
    else st.1

/-- `text.split(/\n\s*\n/)`, as a one-pass state machine.  A separator of
that regex is a `'\n'`, then a greedy-but-backtracking `\s*`, then a final
`'\n'` — i.e. it runs from a `'\n'` through the following whitespace up to
the **last** `'\n'` of the run; whitespace after that last newline belongs
to the next piece.  The state carries the current piece (`piece`,
reversed) and, once a `'\n'` has been read, `some (sepFound, buf)` where
`sepFound` records whether a second `'\n'` has been seen (a separator is
complete) and `buf` (reversed) holds the whitespace read since the last
`'\n'`.  A non-whitespace character resolves the pending state: it either
closes the piece (separator found — `buf` opens the next piece) or folds
the pending newline and whitespace back into the current piece. -/
def splitParasAux : (s : List Char) → (piece : List Char) →
    (pending : Option (Bool × List Char)) → List (List Char)
  | [], piece, none => [piece.reverse]
  | [], piece, some (sepFound, buf) =>
    if sepFound then [piece.reverse, buf.reverse]
    else [piece.reverse ++ '\n' :: buf.reverse]
  | c :: cs, piece, none =>
    if c = '\n' then splitParasAux cs piece (some (false, []))
    else splitParasAux cs (c :: piece) none
  | c :: cs, piece, some (sepFound, buf) =>
    if c = '\n' then splitParasAux cs piece (some (true, []))
    else if isJsSpace c then splitParasAux cs piece (some (sepFound, c :: buf))
    else
      if sepFound then piece.reverse :: splitParasAux cs (c :: buf) none
      else splitParasAux cs (c :: (buf ++ '\n' :: piece)) none

def splitParas (s : List Char) : List (List Char) :=
  splitParasAux s [] none

/-- One iteration of `recursivelyChunkText`'s paragraph loop.  The state is
`(chunks, currentChunk)`.  An empty-trimming paragraph is skipped; if
appending the trimmed paragraph would push `currentChunk` past `chunkSize`
the current chunk is closed and the next one is seeded with the trailing
`chunkOverlap` characters; otherwise the paragraph is appended with a
blank-line separator. -/
def rctStep (chunkSize chunkOverlap : Nat)
    (st : List (List Char) × List Char) (paragraph : List Char) :
    List (List Char) × List Char :=
  let paraText := jsTrim paragraph
  if paraText = [] then st
  else if st.2 ≠ [] ∧ chunkSize < st.2.length + paraText.length then
    let newCurrent :=
      if 0 < chunkOverlap ∧ chunkOverlap < st.2.length then
        jsSliceLast st.2 chunkOverlap ++ '\n' :: '\n' :: paraText
      else paraText
    (st.1 ++ [st.2], newCurrent)
  else
    (st.1, if st.2 ≠ [] then st.2 ++ '\n' :: '\n' :: paraText else paraText)

/-- `recursivelyChunkText(text, chunkSize, chunkOverlap)`. -/
def recursivelyChunkText (text : List Char) (chunkSize chunkOverlap : Nat) :
    List (List Char) :=
  let paragraphs := splitParas text
  let st := paragraphs.foldl (rctStep chunkSize chunkOverlap) ([], [])
  if st.2 ≠ [] then st.1 ++ [st.2] else st.1

/-- `chunkMarkdownContent(markdownContent)`: heading pass, then the size
pass with `maxChunkSize = 1000`, `chunkOverlap = 200`; a section at or
under the size bound is passed through **untrimmed** provided its trim is
non-empty. -/
def chunkMarkdownContent (markdownContent : List Char) : List (List Char) :=
  let chunks := chunkByHeadings markdownContent
  chunks.foldl
    (fun finalChunks chunk =>
      if 1000 < chunk.length then
        finalChunks ++ recursivelyChunkText chunk 1000 200
      else if 0 < (jsTrim chunk).length then finalChunks ++ [chunk]
      else finalChunks)
    []

end SemanticNotesPlugin

/-! ## Chunk non-blankness (C8) -/

lemma not_space_head_dropWhile :
    ∀ (l : List Char) (x : Char) (xs : List Char),
      l.dropWhile isJsSpace = x :: xs → isJsSpace x = false := by
  intro l
  induction l with
  | nil => intro x xs h; simp at h
  | cons c cs ih =>
    intro x xs h
    by_cases hc : isJsSpace c
    · rw [List.dropWhile_cons_of_pos (by simpa using hc)] at h
      exact ih x xs h
    · rw [List.dropWhile_cons_of_neg (by simpa using hc)] at h
      cases h
      simpa using hc

lemma jsTrim_has_nonspace {s : List Char} (h : jsTrim s ≠ []) :
    ∃ c ∈ jsTrim s, ¬ isJsSpace c := by
  rw [jsTrim] at h ⊢
  cases hin : ((s.dropWhile isJsSpace).reverse.dropWhile isJsSpace) with
  | nil => rw [hin] at h; simp at h
  | cons x xs =>
    refine ⟨x, ?_, ?_⟩
    · simp
    · simp [not_space_head_dropWhile _ _ _ hin]

namespace SemanticNotesPlugin

lemma rctStep_preserves_not_blank (cs co : Nat)
    (st : List (List Char) × List Char) (p : List Char)
    (h1 : ∀ c ∈ st.1, jsTrim c ≠ []) (h2 : st.2 = [] ∨ jsTrim st.2 ≠ []) :
    (∀ c ∈ (rctStep cs co st p).1, jsTrim c ≠ []) ∧
      ((rctStep cs co st p).2 = [] ∨ jsTrim (rctStep cs co st p).2 ≠ []) := by
  rw [rctStep]
  by_cases hp : jsTrim p = []
  · rw [if_pos hp]
    exact ⟨h1, h2⟩
  · rw [if_neg hp]
    obtain ⟨ch, hch, hchns⟩ := jsTrim_has_nonspace hp
    by_cases hbig : st.2 ≠ [] ∧ cs < st.2.length + (jsTrim p).length
    · rw [if_pos hbig]
      constructor
      · intro c hc
        rcases List.mem_append.1 hc with hc | hc
        · exact h1 c hc
        · have : c = st.2 := by simpa using hc
          subst this
          exact h2.resolve_left hbig.1
      · right
        by_cases hov : 0 < co ∧ co < st.2.length
        · rw [if_pos hov]
          exact jsTrim_ne_nil_of_mem
            (List.mem_append.2 (Or.inr (by simp [hch]))) hchns
        · rw [if_neg hov]
          exact jsTrim_ne_nil_of_mem hch hchns
    · rw [if_neg hbig]
      refine ⟨h1, Or.inr ?_⟩
      by_cases hcur : st.2 ≠ []
      · rw [if_pos hcur]
        exact jsTrim_ne_nil_of_mem
          (List.mem_append.2 (Or.inr (by simp [hch]))) hchns
      · rw [if_neg hcur]
        exact jsTrim_ne_nil_of_mem hch hchns

lemma rct_foldl_not_blank (cs co : Nat) :
    ∀ (ps : List (List Char)) (st : List (List Char) × List Char),
      (∀ c ∈ st.1, jsTrim c ≠ []) → (st.2 = [] ∨ jsTrim st.2 ≠ []) →
      (∀ c ∈ (ps.foldl (rctStep cs co) st).1, jsTrim c ≠ []) ∧
        ((ps.foldl (rctStep cs co) st).2 = [] ∨
          jsTrim (ps.foldl (rctStep cs co) st).2 ≠ []) := by
  intro ps
  induction ps with
  | nil => intro st h1 h2; exact ⟨h1, h2⟩
  | cons p ps ih =>
    intro st h1 h2
    rw [List.foldl_cons]
    obtain ⟨g1, g2⟩ := rctStep_preserves_not_blank cs co st p h1 h2
    exact ih _ g1 g2

lemma recursivelyChunkText_not_blank (text : List Char) (cs co : Nat) :
    ∀ c ∈ recursivelyChunkText text cs co, jsTrim c ≠ [] := by
  rw [recursivelyChunkText]
  intro c hc
  obtain ⟨g1, g2⟩ := rct_foldl_not_blank cs co (splitParas text) ([], [])
    (by intro c hc; simp at hc) (Or.inl rfl)
  by_cases hne : ((splitParas text).foldl (rctStep cs co) ([], [])).2 ≠ []
  · rw [if_pos hne] at hc
    rcases List.mem_append.1 hc with hc | hc
    · exact g1 c hc
    · have : c = ((splitParas text).foldl (rctStep cs co) ([], [])).2 := by
        simpa using hc
      subst this
      exact g2.resolve_left hne
  · rw [if_neg hne] at hc
    exact g1 c hc

lemma chunkMarkdownContent_foldl_not_blank :
    ∀ (chunks : List (List Char)) (acc : List (List Char)),
      (∀ c ∈ acc, jsTrim c ≠ []) →
      ∀ c ∈ chunks.foldl
        (fun finalChunks chunk =>
          if 1000 < chunk.length then
            finalChunks ++ recursivelyChunkText chunk 1000 200
          else if 0 < (jsTrim chunk).length then finalChunks ++ [chunk]
          else finalChunks)
        acc,
      jsTrim c ≠ [] := by
  intro chunks
  induction chunks with
  | nil => intro acc hacc c hc; exact hacc c hc
  | cons chunk chunks ih =>
    intro acc hacc c hc
    rw [List.foldl_cons] at hc
    refine ih _ ?_ c hc
    by_cases hbig : 1000 < chunk.length
    · rw [if_pos hbig]
      intro x hx
      rcases List.mem_append.1 hx with hx | hx
      · exact hacc x hx
      · exact recursivelyChunkText_not_blank chunk 1000 200 x hx
    · rw [if_neg hbig]
      by_cases htr : 0 < (jsTrim chunk).length
      · rw [if_pos htr]
        intro x hx
        rcases List.mem_append.1 hx with hx | hx
        · exact hacc x hx
        · have : x = chunk := by simpa using hx
          subst this
          intro hnil
          rw [hnil] at htr
          exact absurd htr (by simp)
      · rw [if_neg htr]
        exact hacc

end SemanticNotesPlugin

open SemanticNotesPlugin in
/-- C8 counterexample: the document " a" has no headings, so
`chunkByHeadings` returns it whole and untrimmed; being under the size
bound with a non-blank trim, it is pushed **untrimmed** — the produced
chunk is not equal to its own trim as the claim requires. -/
theorem chunk_not_trimmed_counterexample :
    chunkMarkdownContent [' ', 'a'] = [[' ', 'a']] ∧
    jsTrim [' ', 'a'] ≠ [' ', 'a'] := by
  refine ⟨by decide, by decide⟩

open SemanticNotesPlugin in
/-- C8 amended: every chunk produced by `chunkMarkdownContent` is non-empty
and not whitespace-only (its trim is non-empty); chunks are, however, not
always equal to their own trim — the headingless pass-through and
overlap-seeded chunks can carry surrounding whitespace. -/
theorem chunkMarkdownContent_chunks_not_blank
    (text c : List Char) (hc : c ∈ chunkMarkdownContent text) :
    jsTrim c ≠ [] := by
  rw [chunkMarkdownContent] at hc
  exact chunkMarkdownContent_foldl_not_blank (chunkByHeadings text) []
    (by intro x hx; simp at hx) c hc

open SemanticNotesPlugin in
/-- Witness for the amended C8 at the concrete document " a". -/
theorem chunkMarkdownContent_chunks_not_blank_witness :
    ([' ', 'a'] ∈ chunkMarkdownContent [' ', 'a']) ∧ jsTrim [' ', 'a'] ≠ [] :=
  ⟨by decide,
    chunkMarkdownContent_chunks_not_blank [' ', 'a'] [' ', 'a'] (by decide)⟩


/-! ## Chunk sizing and overlap (C9)

The documents of the spec's sizing scenario are 2500 characters long, too
large for kernel evaluation, so the chunker is evaluated on them
symbolically through the following lemmas. -/

namespace SemanticNotesPlugin

lemma splitLinesAux_mem_chars :
    ∀ (s : List Char) (ls i : Nat) (acc : List Char) (p : Nat × List Char),
      p ∈ splitLinesAux s ls i acc → ∀ c ∈ p.2, c ∈ acc ∨ c ∈ s := by
  intro s
  induction s with
  | nil =>
    intro ls i acc p hp c hc
    rw [splitLinesAux] at hp
    have hp2 : p = (ls, acc.reverse) := by simpa using hp
    subst hp2
    left
    simpa using hc
  | cons ch cs ih =>
    intro ls i acc p hp c hc
    rw [splitLinesAux] at hp
    by_cases hch : ch = '\n'
    · rw [if_pos hch] at hp
      rcases List.mem_cons.1 hp with hp | hp
      · subst hp
        left
        simpa using hc
      · rcases ih (i + 1) (i + 1) [] p hp c hc with h | h
        · exact absurd h (List.not_mem_nil c)
        · right; exact List.mem_cons_of_mem _ h
    · rw [if_neg hch] at hp
      rcases ih ls (i + 1) (ch :: acc) p hp c hc with h | h
      · rcases List.mem_cons.1 h with h | h
        · right; rw [h]; exact List.mem_cons_self _ _
        · left; exact h
      · right; exact List.mem_cons_of_mem _ h

lemma isHeadingLine_eq_false_of_no_hash {line : List Char}
    (h : '#' ∉ line) : isHeadingLine line = false := by
  rw [isHeadingLine]
  cases line with
  | nil => rfl
  | cons c rest =>
    have hc : ¬ (c = '#') := fun hEq => h (by rw [hEq]; exact List.mem_cons_self _ _)
    rw [List.takeWhile_cons_of_neg (by simpa using hc)]
    simp

lemma headingStarts_eq_nil {text : List Char} (h : '#' ∉ text) :
    headingStarts text = [] := by
  rw [headingStarts, List.map_eq_nil_iff, List.filter_eq_nil_iff]
  intro p hp
  have hchars := splitLinesAux_mem_chars text 0 0 [] p hp
  simp only [Bool.not_eq_true]
  apply isHeadingLine_eq_false_of_no_hash
  intro hmem
  rcases hchars '#' hmem with h0 | h0
  · exact List.not_mem_nil _ h0
  · exact h h0

lemma chunkByHeadings_of_no_hash {text : List Char} (h : '#' ∉ text) :
    chunkByHeadings text = [text] := by
  rw [chunkByHeadings]
  simp [headingStarts_eq_nil h]

lemma splitParasAux_no_newline :
    ∀ (s piece : List Char), '\n' ∉ s →
      splitParasAux s piece none = [piece.reverse ++ s] := by
  intro s
  induction s with
  | nil => intro piece _; simp [splitParasAux]
  | cons c cs ih =>
    intro piece h
    have hc : ¬ (c = '\n') := fun hEq => h (by rw [← hEq]; exact List.mem_cons_self _ _)
    rw [splitParasAux, if_neg hc, ih (c :: piece) (fun hm => h (List.mem_cons_of_mem _ hm))]
    simp

lemma splitParasAux_sep :
    ∀ (s piece : List Char) (c0 : Char) (ts : List Char),
      '\n' ∉ s → ¬ isJsSpace c0 →
      splitParasAux (s ++ '\n' :: '\n' :: c0 :: ts) piece none
        = (piece.reverse ++ s) :: splitParasAux (c0 :: ts) [] none := by
  intro s
  induction s with
  | nil =>
    intro piece c0 ts _ hc0
    have hc0n : ¬ (c0 = '\n') := by
      intro hEq
      exact hc0 (by rw [hEq]; rw [isJsSpace]; simp)
    rw [List.nil_append]
    conv_lhs => rw [splitParasAux]
    rw [if_pos rfl]
    conv_lhs => rw [splitParasAux]
    rw [if_pos rfl]
    conv_lhs => rw [splitParasAux]
    rw [if_neg hc0n, if_neg (by simpa using hc0), if_pos rfl]
    conv_rhs => rw [splitParasAux]
    rw [if_neg hc0n]
    simp
  | cons c cs ih =>
    intro piece c0 ts h hc0
    have hc : ¬ (c = '\n') := fun hEq => h (by rw [← hEq]; exact List.mem_cons_self _ _)
    rw [List.cons_append, splitParasAux, if_neg hc,
      ih (c :: piece) c0 ts (fun hm => h (List.mem_cons_of_mem _ hm)) hc0]
    simp

lemma jsTrim_of_no_space {s : List Char} (h : ∀ c ∈ s, ¬ isJsSpace c) :
    jsTrim s = s := by
  have h1 : s.dropWhile isJsSpace = s := by
    cases s with
    | nil => rfl
    | cons c cs =>
      exact List.dropWhile_cons_of_neg (by simpa using h c (List.mem_cons_self _ _))
  have h2 : s.reverse.dropWhile isJsSpace = s.reverse := by
    cases hs : s.reverse with
    | nil => rfl
    | cons c cs =>
      have hcmem : c ∈ s := by
        rw [← List.mem_reverse, hs]
        exact List.mem_cons_self _ _
      rw [List.dropWhile_cons_of_neg (by simpa using h c hcmem)]
  rw [jsTrim, h1, h2, List.reverse_reverse]

lemma rctStep_nil_curr (cs co : Nat) (chunks : List (List Char))
    (p : List Char) (hp : jsTrim p ≠ []) :
    rctStep cs co (chunks, []) p = (chunks, jsTrim p) := by
  rw [rctStep, if_neg hp, if_neg (by simp)]
  simp

lemma rctStep_append (cs co : Nat) (chunks : List (List Char))
    (curr p : List Char) (hcur : curr ≠ []) (hp : jsTrim p ≠ [])
    (hle : curr.length + (jsTrim p).length ≤ cs) :
    rctStep cs co (chunks, curr) p
      = (chunks, curr ++ '\n' :: '\n' :: jsTrim p) := by
  rw [rctStep, if_neg hp, if_neg (by simp; intro _; omega)]
  simp [hcur]

lemma rctStep_close_overlap (cs co : Nat) (chunks : List (List Char))
    (curr p : List Char) (hcur : curr ≠ []) (hp : jsTrim p ≠ [])
    (hgt : cs < curr.length + (jsTrim p).length)
    (hov : 0 < co ∧ co < curr.length) :
    rctStep cs co (chunks, curr) p
      = (chunks ++ [curr], jsSliceLast curr co ++ '\n' :: '\n' :: jsTrim p) := by
  rw [rctStep, if_neg hp, if_pos ⟨hcur, hgt⟩, if_pos hov]

end SemanticNotesPlugin

/-- A headingless 2500-character document that is a single paragraph (no
blank lines). -/
def singleParagraphDoc : List Char := List.replicate 2500 'a'

/-- A headingless document whose first two paragraphs (802 and 198
characters) pass the size test together — `802 + 198 = 1000` is not
`> 1000` — yet join to a 1002-character chunk, because the test ignores
the two-character blank-line separator. -/
def twoParagraphOverflowDoc : List Char :=
  List.replicate 802 'a' ++
    '\n' :: '\n' :: (List.replicate 198 'b' ++ '\n' :: '\n' :: ['c', 'c', 'c'])

/-- A headingless 2500-character document with paragraphs of 950, 748 and
798 characters, realising the spec's three-chunk overlap scenario. -/
def threeParagraphDoc : List Char :=
  List.replicate 950 'a' ++
    '\n' :: '\n' :: (List.replicate 748 'b' ++
      '\n' :: '\n' :: List.replicate 798 'c')

namespace SemanticNotesPlugin

lemma no_newline_replicate (n : Nat) (c : Char) (hc : ¬ (c = '\n')) :
    '\n' ∉ List.replicate n c := by
  intro h
  exact hc ((List.eq_of_mem_replicate h).symm)

lemma jsTrim_replicate (n : Nat) (c : Char) (hc : ¬ isJsSpace c) :
    jsTrim (List.replicate n c) = List.replicate n c :=
  jsTrim_of_no_space (fun x hx => by rw [List.eq_of_mem_replicate hx]; exact hc)

lemma splitParas_singleParagraphDoc :
    splitParas singleParagraphDoc = [singleParagraphDoc] := by
  rw [splitParas, singleParagraphDoc,
    splitParasAux_no_newline _ _ (no_newline_replicate _ _ (by decide))]
  rfl

lemma rct_singleParagraphDoc :
    recursivelyChunkText singleParagraphDoc 1000 200 = [singleParagraphDoc] := by
  rw [recursivelyChunkText, splitParas_singleParagraphDoc]
  have htrim : jsTrim singleParagraphDoc = singleParagraphDoc := by
    rw [singleParagraphDoc]
    exact jsTrim_replicate _ _ (by decide)
  have hne : singleParagraphDoc ≠ [] := by
    intro h
    have := congrArg List.length h
    rw [singleParagraphDoc, List.length_replicate] at this
    exact absurd this (by decide)
  rw [List.foldl_cons, List.foldl_nil,
    rctStep_nil_curr 1000 200 [] singleParagraphDoc (by rw [htrim]; exact hne),
    htrim]
  rw [if_pos hne]
  rfl

lemma no_hash_singleParagraphDoc : '#' ∉ singleParagraphDoc := by
  rw [singleParagraphDoc]
  intro h
  exact absurd (List.eq_of_mem_replicate h) (by decide)

lemma chunkMarkdownContent_singleParagraphDoc :
    chunkMarkdownContent singleParagraphDoc = [singleParagraphDoc] := by
  rw [chunkMarkdownContent, chunkByHeadings_of_no_hash no_hash_singleParagraphDoc]
  rw [List.foldl_cons, List.foldl_nil]
  rw [if_pos (by rw [singleParagraphDoc, List.length_replicate]; omega)]
  rw [rct_singleParagraphDoc]
  rfl

end SemanticNotesPlugin

namespace SemanticNotesPlugin

lemma replicate_ne_nil (n : Nat) (hn : n ≠ 0) (c : Char) :
    List.replicate n c ≠ [] := by
  intro h
  have := congrArg List.length h
  rw [List.length_replicate] at this
  exact hn (by simpa using this)

lemma drop_append_len (l1 l2 : List Char) (n k : Nat)
    (h : n = l1.length + k) : (l1 ++ l2).drop n = l2.drop k := by
  rw [h, List.drop_append]

lemma splitParas_twoParagraphOverflowDoc :
    splitParas twoParagraphOverflowDoc
      = [List.replicate 802 'a', List.replicate 198 'b', ['c', 'c', 'c']] := by
  rw [splitParas, twoParagraphOverflowDoc]
  have h1 : List.replicate 198 'b' ++ '\n' :: '\n' :: ['c', 'c', 'c']
      = 'b' :: (List.replicate 197 'b' ++ '\n' :: '\n' :: ['c', 'c', 'c']) := rfl
  rw [h1,
    splitParasAux_sep _ _ _ _ (no_newline_replicate _ _ (by decide)) (by decide),
    ← h1]
  rw [splitParasAux_sep _ _ _ _ (no_newline_replicate _ _ (by decide)) (by decide),
    splitParasAux_no_newline _ _ (by decide)]
  simp only [List.reverse_nil, List.nil_append]

lemma rct_twoParagraphOverflowDoc :
    recursivelyChunkText twoParagraphOverflowDoc 1000 200
      = [List.replicate 802 'a' ++ '\n' :: '\n' :: List.replicate 198 'b',
         '\n' :: '\n' ::
           (List.replicate 198 'b' ++ '\n' :: '\n' :: ['c', 'c', 'c'])] := by
  rw [recursivelyChunkText, splitParas_twoParagraphOverflowDoc]
  have htA : jsTrim (List.replicate 802 'a') = List.replicate 802 'a' :=
    jsTrim_replicate _ _ (by decide)
  have htB : jsTrim (List.replicate 198 'b') = List.replicate 198 'b' :=
    jsTrim_replicate _ _ (by decide)
  have htC : jsTrim ['c', 'c', 'c'] = ['c', 'c', 'c'] := by decide
  have hA : List.replicate 802 'a' ≠ [] := replicate_ne_nil _ (by decide) _
  have hB : List.replicate 198 'b' ≠ [] := replicate_ne_nil _ (by decide) _
  have hcurlen :
      (List.replicate 802 'a' ++ '\n' :: '\n' :: List.replicate 198 'b').length
        = 1002 := by
    rw [List.length_append, List.length_cons, List.length_cons,
      List.length_replicate, List.length_replicate]
  rw [List.foldl_cons, List.foldl_cons, List.foldl_cons, List.foldl_nil]
  rw [rctStep_nil_curr 1000 200 [] _ (by rw [htA]; exact hA), htA]
  rw [rctStep_append 1000 200 [] _ _ hA (by rw [htB]; exact hB)
    (by rw [htB, List.length_replicate, List.length_replicate]), htB]
  rw [rctStep_close_overlap 1000 200 [] _ _
    (by intro h; rw [h] at hcurlen; exact absurd hcurlen (by decide))
    (by rw [htC]; decide)
    (by rw [htC, hcurlen]; decide)
    (by rw [hcurlen]; exact ⟨by decide, by decide⟩), htC]
  have hslice :
      jsSliceLast (List.replicate 802 'a' ++ '\n' :: '\n' :: List.replicate 198 'b') 200
        = '\n' :: '\n' :: List.replicate 198 'b' := by
    rw [jsSliceLast, hcurlen]
    rw [drop_append_len _ _ 802 0 (by rw [List.length_replicate])]
    rfl
  rw [hslice]
  rw [if_pos (by exact fun h => List.noConfusion h)]
  rfl

lemma no_hash_twoParagraphOverflowDoc : '#' ∉ twoParagraphOverflowDoc := by
  rw [twoParagraphOverflowDoc]
  intro h
  rcases List.mem_append.1 h with h | h
  · exact absurd (List.eq_of_mem_replicate h) (by decide)
  · rcases List.mem_cons.1 h with h | h
    · exact absurd h (by decide)
    · rcases List.mem_cons.1 h with h | h
      · exact absurd h (by decide)
      · rcases List.mem_append.1 h with h | h
        · exact absurd (List.eq_of_mem_replicate h) (by decide)
        · rcases List.mem_cons.1 h with h | h
          · exact absurd h (by decide)
          · rcases List.mem_cons.1 h with h | h
            · exact absurd h (by decide)
            · exact absurd h (by decide)

lemma length_twoParagraphOverflowDoc : twoParagraphOverflowDoc.length = 1007 := by
  rw [twoParagraphOverflowDoc, List.length_append, List.length_cons,
    List.length_cons, List.length_append, List.length_cons, List.length_cons,
    List.length_replicate, List.length_replicate]
  rfl

lemma chunkMarkdownContent_twoParagraphOverflowDoc :
    chunkMarkdownContent twoParagraphOverflowDoc
      = [List.replicate 802 'a' ++ '\n' :: '\n' :: List.replicate 198 'b',
         '\n' :: '\n' ::
           (List.replicate 198 'b' ++ '\n' :: '\n' :: ['c', 'c', 'c'])] := by
  rw [chunkMarkdownContent,
    chunkByHeadings_of_no_hash no_hash_twoParagraphOverflowDoc]
  rw [List.foldl_cons, List.foldl_nil]
  rw [if_pos (by rw [length_twoParagraphOverflowDoc]; omega)]
  rw [rct_twoParagraphOverflowDoc]
  rfl

end SemanticNotesPlugin

namespace SemanticNotesPlugin

lemma splitParas_threeParagraphDoc :
    splitParas threeParagraphDoc
      = [List.replicate 950 'a', List.replicate 748 'b',
         List.replicate 798 'c'] := by
  rw [splitParas, threeParagraphDoc]
  have h1 : List.replicate 748 'b' ++ '\n' :: '\n' :: List.replicate 798 'c'
      = 'b' :: (List.replicate 747 'b' ++ '\n' :: '\n' :: List.replicate 798 'c') :=
    rfl
  rw [h1,
    splitParasAux_sep _ _ _ _ (no_newline_replicate _ _ (by decide)) (by decide),
    ← h1]
  have h2 : (List.replicate 798 'c' : List Char) = 'c' :: List.replicate 797 'c' :=
    rfl
  rw [h2,
    splitParasAux_sep _ _ _ _ (no_newline_replicate _ _ (by decide)) (by decide),
    ← h2, splitParasAux_no_newline _ _ (no_newline_replicate _ _ (by decide))]
  simp only [List.reverse_nil, List.nil_append]

lemma scenario_chunk2_length :
    (List.replicate 200 'a' ++ '\n' :: '\n' :: List.replicate 748 'b').length
      = 950 := by
  rw [List.length_append, List.length_cons, List.length_cons,
    List.length_replicate, List.length_replicate]

lemma rct_threeParagraphDoc :
    recursivelyChunkText threeParagraphDoc 1000 200
      = [List.replicate 950 'a',
         List.replicate 200 'a' ++ '\n' :: '\n' :: List.replicate 748 'b',
         List.replicate 200 'b' ++ '\n' :: '\n' :: List.replicate 798 'c'] := by
  rw [recursivelyChunkText, splitParas_threeParagraphDoc]
  have htA : jsTrim (List.replicate 950 'a') = List.replicate 950 'a' :=
    jsTrim_replicate _ _ (by decide)
  have htB : jsTrim (List.replicate 748 'b') = List.replicate 748 'b' :=
    jsTrim_replicate _ _ (by decide)
  have htC : jsTrim (List.replicate 798 'c') = List.replicate 798 'c' :=
    jsTrim_replicate _ _ (by decide)
  have hA : List.replicate 950 'a' ≠ [] := replicate_ne_nil _ (by decide) _
  have hB : List.replicate 748 'b' ≠ [] := replicate_ne_nil _ (by decide) _
  have hC : List.replicate 798 'c' ≠ [] := replicate_ne_nil _ (by decide) _
  rw [List.foldl_cons, List.foldl_cons, List.foldl_cons, List.foldl_nil]
  rw [rctStep_nil_curr 1000 200 [] _ (by rw [htA]; exact hA), htA]
  rw [rctStep_close_overlap 1000 200 [] _ _ hA (by rw [htB]; exact hB)
    (by rw [htB, List.length_replicate, List.length_replicate]; omega)
    (by rw [List.length_replicate]; exact ⟨by decide, by decide⟩), htB]
  have hslice1 : jsSliceLast (List.replicate 950 'a') 200
      = List.replicate 200 'a' := by
    rw [jsSliceLast, List.length_replicate, List.drop_replicate]
  rw [hslice1]
  rw [rctStep_close_overlap 1000 200 _ _ _
    (by
      intro h
      have := congrArg List.length h
      rw [scenario_chunk2_length] at this
      exact absurd this (by decide))
    (by rw [htC]; exact hC)
    (by rw [htC, scenario_chunk2_length, List.length_replicate]; omega)
    (by rw [scenario_chunk2_length]; exact ⟨by decide, by decide⟩), htC]
  have hslice2 :
      jsSliceLast (List.replicate 200 'a' ++ '\n' :: '\n' :: List.replicate 748 'b') 200
        = List.replicate 200 'b' := by
    rw [jsSliceLast, scenario_chunk2_length]
    rw [drop_append_len _ _ 750 550 (by rw [List.length_replicate])]
    rw [show ('\n' :: '\n' :: List.replicate 748 'b' : List Char)
      = ['\n', '\n'] ++ List.replicate 748 'b' from rfl]
    rw [drop_append_len _ _ 550 548 (by rfl), List.drop_replicate]
  rw [hslice2]
  rw [if_pos ?_]
  · rfl
  · intro h
    have := congrArg List.length h
    rw [List.length_append, List.length_cons, List.length_cons,
      List.length_replicate, List.length_replicate] at this
    exact absurd this (by decide)

lemma no_hash_threeParagraphDoc : '#' ∉ threeParagraphDoc := by
  rw [threeParagraphDoc]
  intro h
  rcases List.mem_append.1 h with h | h
  · exact absurd (List.eq_of_mem_replicate h) (by decide)
  · rcases List.mem_cons.1 h with h | h
    · exact absurd h (by decide)
    · rcases List.mem_cons.1 h with h | h
      · exact absurd h (by decide)
      · rcases List.mem_append.1 h with h | h
        · exact absurd (List.eq_of_mem_replicate h) (by decide)
        · rcases List.mem_cons.1 h with h | h
          · exact absurd h (by decide)
          · rcases List.mem_cons.1 h with h | h
            · exact absurd h (by decide)
            · exact absurd (List.eq_of_mem_replicate h) (by decide)

lemma length_threeParagraphDoc : threeParagraphDoc.length = 2500 := by
  rw [threeParagraphDoc, List.length_append, List.length_cons,
    List.length_cons, List.length_append, List.length_cons, List.length_cons,
    List.length_replicate, List.length_replicate, List.length_replicate]

lemma chunkMarkdownContent_threeParagraphDoc :
    chunkMarkdownContent threeParagraphDoc
      = [List.replicate 950 'a',
         List.replicate 200 'a' ++ '\n' :: '\n' :: List.replicate 748 'b',
         List.replicate 200 'b' ++ '\n' :: '\n' :: List.replicate 798 'c'] := by
  rw [chunkMarkdownContent, chunkByHeadings_of_no_hash no_hash_threeParagraphDoc]
  rw [List.foldl_cons, List.foldl_nil]
  rw [if_pos (by rw [length_threeParagraphDoc]; omega)]
  rw [rct_threeParagraphDoc]
  rfl

end SemanticNotesPlugin

namespace SemanticNotesPlugin

lemma take_append_len (l1 l2 : List Char) (n k : Nat)
    (h : n = l1.length + k) : (l1 ++ l2).take n = l1 ++ l2.take k := by
  rw [h, List.take_append]

lemma jsSliceLast_scenario_chunk1 :
    jsSliceLast (List.replicate 950 'a') 200 = List.replicate 200 'a' := by
  rw [jsSliceLast, List.length_replicate, List.drop_replicate]

lemma jsSliceLast_scenario_chunk2 :
    jsSliceLast (List.replicate 200 'a' ++ '\n' :: '\n' :: List.replicate 748 'b')
      200 = List.replicate 200 'b' := by
  rw [jsSliceLast, scenario_chunk2_length]
  rw [drop_append_len _ _ 750 550 (by rw [List.length_replicate])]
  rw [show ('\n' :: '\n' :: List.replicate 748 'b' : List Char)
    = ['\n', '\n'] ++ List.replicate 748 'b' from rfl]
  rw [drop_append_len _ _ 550 548 (by rfl), List.drop_replicate]

end SemanticNotesPlugin

open SemanticNotesPlugin in
/-- C9 counterexample: the claim fails in both of its parts.  A headingless
2500-character document that is a single paragraph yields one chunk of
2500 characters — not 3, and not at most 1000 (single paragraphs are never
split).  And the size pass can build a 1002 > 1000-character chunk out of
two paragraphs of 802 and 198 characters, because its test compares
`currentChunk.length + paraText.length` against `maxChunkSize` without the
two-character `"\n\n"` joiner that the append then inserts. -/
theorem chunking_size_claims_fail :
    singleParagraphDoc.length = 2500 ∧
    chunkMarkdownContent singleParagraphDoc = [singleParagraphDoc] ∧
    (chunkMarkdownContent singleParagraphDoc).length = 1 ∧
    (chunkMarkdownContent twoParagraphOverflowDoc).map List.length
      = [1002, 205] ∧
    1000 < 1002 := by
  refine ⟨?_, chunkMarkdownContent_singleParagraphDoc, ?_, ?_, by decide⟩
  · rw [singleParagraphDoc, List.length_replicate]
  · rw [chunkMarkdownContent_singleParagraphDoc]
    rfl
  · rw [chunkMarkdownContent_twoParagraphOverflowDoc]
    rw [List.map_cons, List.map_cons, List.map_nil]
    have l1 : (List.replicate 802 'a' ++ '\n' :: '\n' :: List.replicate 198 'b').length
        = 1002 := by
      rw [List.length_append, List.length_cons, List.length_cons,
        List.length_replicate, List.length_replicate]
    have l2 : ('\n' :: '\n' ::
        (List.replicate 198 'b' ++ '\n' :: '\n' :: ['c', 'c', 'c'])).length
        = 205 := by
      rw [List.length_cons, List.length_cons, List.length_append,
        List.length_replicate]
      rfl
    rw [l1, l2]

open SemanticNotesPlugin in
/-- C9 amended: the spec's sizing scenario holds for a suitable paragraph
layout — a headingless 2500-character document with paragraphs of 950, 748
and 798 characters produces exactly 3 chunks, of sizes 950, 950 and 1000
(all ≤ 1000), where chunk 2 begins with the final 200 characters of
chunk 1 and chunk 3 with the final 200 characters of chunk 2.  And in
general the size pass closes the running chunk exactly when
`currentChunk.length + paragraph.length` exceeds `maxChunkSize` (the closed
chunk is pushed unchanged), so a chunk extended by a paragraph that passed
the test is bounded by `maxChunkSize + 2` — not by `maxChunkSize`, since
the test ignores the two-character separator the append inserts. -/
theorem chunking_scenario_and_size_bound :
    (threeParagraphDoc.length = 2500 ∧
      (chunkMarkdownContent threeParagraphDoc).map List.length
        = [950, 950, 1000] ∧
      ((chunkMarkdownContent threeParagraphDoc).getD 1 []).take 200
        = jsSliceLast ((chunkMarkdownContent threeParagraphDoc).getD 0 []) 200 ∧
      ((chunkMarkdownContent threeParagraphDoc).getD 2 []).take 200
        = jsSliceLast ((chunkMarkdownContent threeParagraphDoc).getD 1 []) 200) ∧
    (∀ (cs co : Nat) (chunks : List (List Char)) (curr p : List Char),
      curr ≠ [] → jsTrim p ≠ [] →
      (curr.length + (jsTrim p).length ≤ cs →
        rctStep cs co (chunks, curr) p
          = (chunks, curr ++ '\n' :: '\n' :: jsTrim p) ∧
        (curr ++ '\n' :: '\n' :: jsTrim p).length ≤ cs + 2) ∧
      (cs < curr.length + (jsTrim p).length →
        (rctStep cs co (chunks, curr) p).1 = chunks ++ [curr])) := by
  constructor
  · refine ⟨length_threeParagraphDoc, ?_, ?_, ?_⟩
    · rw [chunkMarkdownContent_threeParagraphDoc]
      rw [List.map_cons, List.map_cons, List.map_cons, List.map_nil]
      rw [List.length_replicate, scenario_chunk2_length]
      rw [List.length_append, List.length_cons, List.length_cons,
        List.length_replicate, List.length_replicate]
    · rw [chunkMarkdownContent_threeParagraphDoc]
      show (List.replicate 200 'a' ++ '\n' :: '\n' :: List.replicate 748 'b').take 200
        = jsSliceLast (List.replicate 950 'a') 200
      rw [jsSliceLast_scenario_chunk1,
        take_append_len _ _ 200 0 (by rw [List.length_replicate]),
        List.take_zero, List.append_nil]
    · rw [chunkMarkdownContent_threeParagraphDoc]
      show (List.replicate 200 'b' ++ '\n' :: '\n' :: List.replicate 798 'c').take 200
        = jsSliceLast
            (List.replicate 200 'a' ++ '\n' :: '\n' :: List.replicate 748 'b') 200
      rw [jsSliceLast_scenario_chunk2,
        take_append_len _ _ 200 0 (by rw [List.length_replicate]),
        List.take_zero, List.append_nil]
  · intro cs co chunks curr p hcur hp
    constructor
    · intro hle
      rw [rctStep_append cs co chunks curr p hcur hp hle]
      refine ⟨rfl, ?_⟩
      rw [List.length_append, List.length_cons, List.length_cons]
      omega
    · intro hgt
      rw [rctStep, if_neg hp, if_pos ⟨hcur, hgt⟩]

open SemanticNotesPlugin in
/-- Witness for the amended C9's general part: an append that passes the
size test (bounded by `maxChunkSize + 2`), and one that closes the chunk
unchanged. -/
theorem chunking_scenario_and_size_bound_witness :
    ((['a'] : List Char) ≠ [] ∧ jsTrim ['b'] ≠ [] ∧
      (['a'] : List Char).length + (jsTrim ['b']).length ≤ 10) ∧
    rctStep 10 3 ([], ['a']) ['b'] = ([], ['a', '\n', '\n', 'b']) ∧
    (['a', '\n', '\n', 'b'] : List Char).length ≤ 10 + 2 ∧
    (rctStep 1 3 ([], ['a']) ['b']).1 = [['a']] := by
  have h := (chunking_scenario_and_size_bound).2 10 3 [] ['a'] ['b']
    (by decide) (by decide)
  have h2 := (chunking_scenario_and_size_bound).2 1 3 [] ['a'] ['b']
    (by decide) (by decide)
  have ha := h.1 (by decide)
  refine ⟨⟨by decide, by decide, by decide⟩, ?_, ?_, h2.2 (by decide)⟩
  · rw [ha.1]; decide
  · exact le_of_eq_of_le (by decide) ha.2
